import Mathlib

/-!
Verification of the composable gradient-transformation core exercised by
`docs/optax-101.ipynb`.  The repository ships only the notebook, which calls
the library (`optax.chain`, `optax.adam`, `optax.adamw`, `optax.clip`,
`optax.warmup_cosine_decay_schedule`, `optax.apply_updates`); the library
implementation itself is not part of the checked-in sources, so each
operation below is modelled from the specification's description of it.
Numeric array leaves are idealised as lists of real numbers.
-/

/-- The error kinds of the library: tree-shape mismatch between
params/grads/updates, chain state-sequence or apply-updates structural
mismatch, and a missing required `params` argument. -/
inductive Err where
  | shapeError : Err
  | structuralMismatch : Err
  | missingParams : Err
deriving DecidableEq

mutual

/-- Modelled from the spec: a ParamTree/UpdateTree is a mapping from string
keys to either numeric arrays (here: lists of reals) or nested trees. -/
inductive PTree : Type where
  | leaf : List ℝ → PTree
  | node : PForest → PTree

/-- An ordered list of named children of a `PTree` node. -/
inductive PForest : Type where
  | nil : PForest
  | cons : String → PTree → PForest → PForest

end

mutual

/-- Elementwise map over every leaf entry of a tree. -/
def PTree.map (f : ℝ → ℝ) : PTree → PTree
  | .leaf xs => .leaf (xs.map f)
  | .node ts => .node (PForest.map f ts)

/-- Elementwise map over every leaf entry of a forest. -/
def PForest.map (f : ℝ → ℝ) : PForest → PForest
  | .nil => .nil
  | .cons k t ts => .cons k (PTree.map f t) (PForest.map f ts)

end

mutual

/-- Modelled from the spec: zip two trees of identical key structure and
identical leaf array shapes with an elementwise binary operation; any
structural mismatch yields `none` (an error, never a silent broadcast). -/
def PTree.zipWith (f : ℝ → ℝ → ℝ) : PTree → PTree → Option PTree
  | .leaf xs, .leaf ys =>
      if xs.length = ys.length then some (.leaf (List.zipWith f xs ys)) else none
  | .node ts, .node us => Option.map PTree.node (PForest.zipWith f ts us)
  | _, _ => none

/-- Zip two forests keywise; `none` on any key or shape mismatch. -/
def PForest.zipWith (f : ℝ → ℝ → ℝ) : PForest → PForest → Option PForest
  | .nil, .nil => some .nil
  | .cons k t ts, .cons k' u us =>
      if k = k' then
        match PTree.zipWith f t u, PForest.zipWith f ts us with
        | some v, some vs => some (.cons k v vs)
        | _, _ => none
      else none
  | _, _ => none

end

mutual

/-- Structural equality of two trees: identical key structure and identical
leaf array lengths, ignoring the numeric values. -/
def PTree.sameStruct : PTree → PTree → Bool
  | .leaf xs, .leaf ys => xs.length == ys.length
  | .node ts, .node us => PForest.sameStruct ts us
  | _, _ => false

/-- Structural equality of two forests. -/
def PForest.sameStruct : PForest → PForest → Bool
  | .nil, .nil => true
  | .cons k t ts, .cons k' u us =>
      k == k' && PTree.sameStruct t u && PForest.sameStruct ts us
  | _, _ => false

end

mutual

/-- Sum of squares of all leaf entries of a tree. -/
def PTree.sumSq : PTree → ℝ
  | .leaf xs => (xs.map fun x => x ^ 2).sum
  | .node ts => PForest.sumSq ts

/-- Sum of squares of all leaf entries of a forest. -/
def PForest.sumSq : PForest → ℝ
  | .nil => 0
  | .cons _ t ts => PTree.sumSq t + PForest.sumSq ts

end

mutual

/-- All leaf entries of a tree, flattened into a single vector in order. -/
def PTree.flatten : PTree → List ℝ
  | .leaf xs => xs
  | .node ts => PForest.flatten ts

/-- All leaf entries of a forest, flattened in order. -/
def PForest.flatten : PForest → List ℝ
  | .nil => []
  | .cons _ t ts => PTree.flatten t ++ PForest.flatten ts

end

/-- The top-level keys of a forest, in order. -/
def PForest.keys : PForest → List String
  | .nil => []
  | .cons k _ ts => k :: PForest.keys ts

/-- Modelled from the spec: the global norm is the L2 norm over all leaves of
a tree treated as one flattened vector. -/
noncomputable def global_norm (t : PTree) : ℝ :=
  Real.sqrt (PTree.sumSq t)

/-- Modelled from the spec: an OptState is an opaque transformation-specific
value — a unit state, a step counter, Adam's two moment trees plus step
counter, or (for a chain) an ordered sequence of sub-states. -/
inductive OptState where
  | unit : OptState
  | counter : ℕ → OptState
  | moments : PTree → PTree → ℕ → OptState
  | seq : List OptState → OptState

/-- Modelled from the spec: a gradient transformation is the capability pair
`init : ParamTree → OptState` and
`update : (UpdateTree, OptState, ParamTree?) → (UpdateTree, OptState)`,
with errors surfaced in `Except`. -/
structure GradientTransformation where
  init : PTree → OptState
  update : PTree → OptState → Option PTree → Except Err (PTree × OptState)

/-- Modelled from the spec: global-norm clipping.  Stateless; computes the
single scalar L2 norm over all leaves jointly; if that norm exceeds the
threshold every leaf is scaled by `threshold / norm`, otherwise the tree
passes through unchanged. -/
noncomputable def clip_by_global_norm (threshold : ℝ) : GradientTransformation where
  init _ := .unit
  update g s _ :=
    .ok (if global_norm g ≤ threshold then g
         else PTree.map (fun x => x * (threshold / global_norm g)) g, s)

/-- Modelled from the spec: the Adam moment estimator.  State is two moment
trees `m`, `v` shaped like the params plus a step counter, all zero at init;
each update forms the EMAs `m' = b1*m + (1-b1)*g`, `v' = b2*v + (1-b2)*g²`,
bias-corrects by the post-increment step `t` as `m_hat = m'/(1-b1^t)`,
`v_hat = v'/(1-b2^t)`, and outputs `m_hat / (sqrt v_hat + eps)` per leaf. -/
noncomputable def scale_by_adam (b1 b2 eps : ℝ) : GradientTransformation where
  init p := .moments (PTree.map (fun _ => 0) p) (PTree.map (fun _ => 0) p) 0
  update g s _ :=
    match s with
    | .moments m v t =>
      match PTree.zipWith (fun mi gi => b1 * mi + (1 - b1) * gi) m g,
            PTree.zipWith (fun vi gi => b2 * vi + (1 - b2) * gi ^ 2) v g with
      | some mNew, some vNew =>
        let tNew := t + 1
        let mHat := PTree.map (fun x => x / (1 - b1 ^ tNew)) mNew
        let vHat := PTree.map (fun x => x / (1 - b2 ^ tNew)) vNew
        match PTree.zipWith (fun mh vh => mh / (Real.sqrt vh + eps)) mHat vHat with
        | some out => .ok (out, .moments mNew vNew tNew)
        | none => .error .shapeError
      | _, _ => .error .shapeError
    | _ => .error .structuralMismatch

/-- Modelled from the spec: decoupled weight decay.  Stateless; requires the
current params (fails with `MissingParamsError` when absent) and returns
`update - decay_rate * params` elementwise with the state unchanged. -/
def add_decayed_weights (decay_rate : ℝ) : GradientTransformation where
  init _ := .unit
  update g s p :=
    match p with
    | none => .error .missingParams
    | some ps =>
      match PTree.zipWith (fun u w => u - decay_rate * w) g ps with
      | some out => .ok (out, s)
      | none => .error .shapeError

/-- Modelled from the spec: scale-by-schedule.  Wraps a schedule and a step
counter as state; each call multiplies every leaf by `-schedule(step)` and
increments the counter; it has no special error cases. -/
def scale_by_schedule (sched : ℕ → ℝ) : GradientTransformation where
  init _ := .counter 0
  update g s _ :=
    match s with
    | .counter step => .ok (PTree.map (fun x => x * (-sched step)) g, .counter (step + 1))
    | _ => .error .structuralMismatch

/-- The left-to-right threading of a chain's links: link `i` receives the
update tree produced by link `i-1` and its own state slice, and the new
states are collected in order. -/
def chainGo : List GradientTransformation → PTree → List OptState → Option PTree →
    Except Err (PTree × List OptState)
  | [], g, [], _ => .ok (g, [])
  | t :: ts, g, s :: ss, p =>
    match t.update g s p with
    | .error e => .error e
    | .ok (u, sNew) =>
      match chainGo ts u ss p with
      | .error e => .error e
      | .ok (uFinal, ssNew) => .ok (uFinal, sNew :: ssNew)
  | _, _, _, _ => .error .structuralMismatch

/-- Modelled from the spec: the chain combinator.  `init` collects each
link's init state into an ordered sequence; `update` fails with
`StructuralMismatchError` when the state-sequence length does not match the
number of links, and otherwise threads the links left-to-right. -/
def chain (ts : List GradientTransformation) : GradientTransformation where
  init p := .seq (ts.map fun t => t.init p)
  update g s p :=
    match s with
    | .seq ss =>
      if ss.length = ts.length then
        match chainGo ts g ss p with
        | .error e => .error e
        | .ok (u, ssNew) => .ok (u, .seq ssNew)
      else .error .structuralMismatch
    | _ => .error .structuralMismatch

/-- Modelled from the spec: the warmup + cosine-decay schedule.  Linear
interpolation from `init_value` to `peak_value` over the warmup steps, then
cosine decay from `peak_value` to `end_value` with clamped progress, then
held at `end_value`. -/
noncomputable def warmup_cosine_decay_schedule (init_value peak_value : ℝ)
    (warmup_steps decay_steps : ℕ) (end_value : ℝ) (step : ℕ) : ℝ :=
  if step < warmup_steps then
    init_value + (peak_value - init_value) * ((step : ℝ) / (warmup_steps : ℝ))
  else if step ≤ decay_steps then
    let progress := min 1 (max 0
      (((step : ℝ) - (warmup_steps : ℝ)) / ((decay_steps : ℝ) - (warmup_steps : ℝ))))
    end_value + 0.5 * (peak_value - end_value) * (1 + Real.cos (Real.pi * progress))
  else end_value

/-- Modelled from the spec: the terminal apply-updates operation.  The
elementwise sum of corresponding leaves of params and updates; fails with
`StructuralMismatchError` when the trees' shapes differ. -/
def apply_updates (params updates : PTree) : Except Err PTree :=
  match PTree.zipWith (fun p u => p + u) params updates with
  | some t => .ok t
  | none => .error .structuralMismatch

mutual

/-- Mapping the identity over a tree returns it unchanged. -/
theorem PTree.map_id : ∀ t : PTree, PTree.map (fun x => x) t = t
  | .leaf xs => by simp [PTree.map]
  | .node ts => by simp [PTree.map, PForest.forest_map_id ts]

/-- Mapping the identity over a forest returns it unchanged. -/
theorem PForest.forest_map_id : ∀ ts : PForest, PForest.map (fun x => x) ts = ts
  | .nil => rfl
  | .cons k t ts => by simp [PForest.map, PTree.map_id t, PForest.forest_map_id ts]

end

mutual

/-- Two elementwise maps over a tree fuse into one. -/
theorem PTree.map_map (f g : ℝ → ℝ) :
    ∀ t : PTree, PTree.map g (PTree.map f t) = PTree.map (fun x => g (f x)) t
  | .leaf xs => by simp [PTree.map, Function.comp]
  | .node ts => by simp [PTree.map, PForest.forest_map_map f g ts]

/-- Two elementwise maps over a forest fuse into one. -/
theorem PForest.forest_map_map (f g : ℝ → ℝ) :
    ∀ ts : PForest, PForest.map g (PForest.map f ts) = PForest.map (fun x => g (f x)) ts
  | .nil => rfl
  | .cons k t ts => by simp [PForest.map, PTree.map_map f g t, PForest.forest_map_map f g ts]

end

mutual

/-- Zipping two elementwise maps of one tree always succeeds and is itself an
elementwise map. -/
theorem PTree.zipWith_map_map (f : ℝ → ℝ → ℝ) (h₁ h₂ : ℝ → ℝ) :
    ∀ t : PTree, PTree.zipWith f (PTree.map h₁ t) (PTree.map h₂ t) =
      some (PTree.map (fun x => f (h₁ x) (h₂ x)) t)
  | .leaf xs => by
      simp [PTree.map, PTree.zipWith, List.zipWith_map, List.zipWith_same]
  | .node ts => by simp [PTree.map, PTree.zipWith, PForest.forest_zipWith_map_map f h₁ h₂ ts]

/-- Zipping two elementwise maps of one forest always succeeds and is itself
an elementwise map. -/
theorem PForest.forest_zipWith_map_map (f : ℝ → ℝ → ℝ) (h₁ h₂ : ℝ → ℝ) :
    ∀ ts : PForest, PForest.zipWith f (PForest.map h₁ ts) (PForest.map h₂ ts) =
      some (PForest.map (fun x => f (h₁ x) (h₂ x)) ts)
  | .nil => rfl
  | .cons k t ts => by
      simp [PForest.map, PForest.zipWith, PTree.zipWith_map_map f h₁ h₂ t,
            PForest.forest_zipWith_map_map f h₁ h₂ ts]

end

/-- Zipping an elementwise map of a tree against the tree itself. -/
theorem PTree.zipWith_map_left (f : ℝ → ℝ → ℝ) (h₁ : ℝ → ℝ) (t : PTree) :
    PTree.zipWith f (PTree.map h₁ t) t = some (PTree.map (fun x => f (h₁ x) x) t) := by
  have h := PTree.zipWith_map_map f h₁ (fun x => x) t
  rwa [PTree.map_id t] at h

mutual

/-- The sum of squares of a tree is nonnegative. -/
theorem PTree.sumSq_nonneg : ∀ t : PTree, 0 ≤ PTree.sumSq t
  | .leaf xs => by
      simp only [PTree.sumSq]
      exact List.sum_nonneg (by
        intro x hx
        obtain ⟨y, _, rfl⟩ := List.mem_map.mp hx
        positivity)
  | .node ts => PForest.forest_sumSq_nonneg ts

/-- The sum of squares of a forest is nonnegative. -/
theorem PForest.forest_sumSq_nonneg : ∀ ts : PForest, 0 ≤ PForest.sumSq ts
  | .nil => le_refl 0
  | .cons _ t ts => by
      have h1 := PTree.sumSq_nonneg t
      have h2 := PForest.forest_sumSq_nonneg ts
      simp only [PForest.sumSq]
      linarith

end

mutual

/-- Scaling every leaf of a tree by `k` scales the sum of squares by `k²`. -/
theorem PTree.sumSq_map_mul (k : ℝ) :
    ∀ t : PTree, PTree.sumSq (PTree.map (fun x => x * k) t) = PTree.sumSq t * k ^ 2
  | .leaf xs => by
      simp only [PTree.sumSq, PTree.map, List.map_map]
      induction xs with
      | nil => simp
      | cons x xs ih => simp only [List.map_cons, List.sum_cons, Function.comp] at ih ⊢; ring_nf; ring_nf at ih; linarith
  | .node ts => PForest.forest_sumSq_map_mul k ts

/-- Scaling every leaf of a forest by `k` scales the sum of squares by `k²`. -/
theorem PForest.forest_sumSq_map_mul (k : ℝ) :
    ∀ ts : PForest, PForest.sumSq (PForest.map (fun x => x * k) ts) = PForest.sumSq ts * k ^ 2
  | .nil => by simp [PForest.map, PForest.sumSq]
  | .cons _ t ts => by
      simp only [PForest.map, PForest.sumSq, PTree.sumSq_map_mul k t, PForest.forest_sumSq_map_mul k ts]
      ring

end

mutual

/-- The sum of squares of a tree is the sum of squares of its flattened
leaf vector. -/
theorem PTree.sumSq_eq_flatten :
    ∀ t : PTree, PTree.sumSq t = ((PTree.flatten t).map fun x => x ^ 2).sum
  | .leaf _ => rfl
  | .node ts => PForest.forest_sumSq_eq_flatten ts

/-- The sum of squares of a forest is the sum of squares of its flattened
leaf vector. -/
theorem PForest.forest_sumSq_eq_flatten :
    ∀ ts : PForest, PForest.sumSq ts = ((PForest.flatten ts).map fun x => x ^ 2).sum
  | .nil => rfl
  | .cons _ t ts => by
      simp only [PForest.sumSq, PForest.flatten, List.map_append, List.sum_append,
        PTree.sumSq_eq_flatten t, PForest.forest_sumSq_eq_flatten ts]

end

mutual

/-- A tree zip succeeds exactly when the two trees have the same structure. -/
theorem PTree.zipWith_isSome (f : ℝ → ℝ → ℝ) :
    ∀ a b : PTree, (PTree.zipWith f a b).isSome = PTree.sameStruct a b
  | .leaf xs, .leaf ys => by
      by_cases h : xs.length = ys.length <;> simp [PTree.zipWith, PTree.sameStruct, h]
  | .node ts, .node us => by
      simp [PTree.zipWith, PTree.sameStruct, ← PForest.forest_zipWith_isSome f ts us]
  | .leaf _, .node _ => rfl
  | .node _, .leaf _ => rfl

/-- A forest zip succeeds exactly when the two forests have the same
structure. -/
theorem PForest.forest_zipWith_isSome (f : ℝ → ℝ → ℝ) :
    ∀ a b : PForest, (PForest.zipWith f a b).isSome = PForest.sameStruct a b
  | .nil, .nil => rfl
  | .cons k t ts, .cons k' u us => by
      by_cases hk : k = k'
      · subst hk
        have h1 := PTree.zipWith_isSome f t u
        have h2 := PForest.forest_zipWith_isSome f ts us
        cases hzu : PTree.zipWith f t u <;> cases hzs : PForest.zipWith f ts us <;>
          rw [hzu] at h1 <;> rw [hzs] at h2 <;>
          simp [PForest.zipWith, PForest.sameStruct, hzu, hzs, ← h1, ← h2]
      · simp [PForest.zipWith, PForest.sameStruct, hk]
  | .nil, .cons _ _ _ => rfl
  | .cons _ _ _, .nil => rfl

end

/-- Structurally equal forests have the same top-level key list. -/
theorem PForest.sameStruct_keys :
    ∀ ts us : PForest, PForest.sameStruct ts us = true → PForest.keys ts = PForest.keys us
  | .nil, .nil, _ => rfl
  | .cons k t ts, .cons k' u us, h => by
      simp only [PForest.sameStruct, Bool.and_eq_true, beq_iff_eq] at h
      simp [PForest.keys, h.1.1, PForest.sameStruct_keys ts us h.2]
  | .nil, .cons _ _ _, h => by simp [PForest.sameStruct] at h
  | .cons _ _ _, .nil, h => by simp [PForest.sameStruct] at h

/-- A successful chain threading returns exactly one new state per link. -/
theorem chainGo_length :
    ∀ (ts : List GradientTransformation) (g : PTree) (ss : List OptState)
      (p : Option PTree) (u : PTree) (ssNew : List OptState),
      chainGo ts g ss p = .ok (u, ssNew) → ssNew.length = ts.length
  | [], g, [], p, u, ssNew => by
      intro h
      simp only [chainGo, Except.ok.injEq, Prod.mk.injEq] at h
      simp [← h.2]
  | [], _, _ :: _, _, _, _ => by intro h; simp [chainGo] at h
  | _ :: _, _, [], _, _, _ => by intro h; simp [chainGo] at h
  | t :: ts, g, s :: ss, p, u, ssNew => by
      intro h
      simp only [chainGo] at h
      cases hu : t.update g s p with
      | error e => rw [hu] at h; simp at h
      | ok r =>
        obtain ⟨u1, s1⟩ := r
        rw [hu] at h
        dsimp only at h
        cases hg : chainGo ts u1 ss p with
        | error e => rw [hg] at h; simp at h
        | ok r2 =>
          obtain ⟨u2, ss2⟩ := r2
          rw [hg] at h
          simp only [Except.ok.injEq, Prod.mk.injEq] at h
          have hrec := chainGo_length ts u1 ss p u2 ss2 hg
          simp [← h.2, hrec]

/-- A successful chain threading on matching lengths: helper showing the
threading of a single link prepended to a chain. -/
theorem chainGo_cons (t : GradientTransformation) (ts : List GradientTransformation)
    (g : PTree) (s : OptState) (ss : List OptState) (p : Option PTree)
    (u1 : PTree) (s1 : OptState) (hu : t.update g s p = .ok (u1, s1)) :
    chainGo (t :: ts) g (s :: ss) p =
      match chainGo ts u1 ss p with
      | .error e => .error e
      | .ok (uF, ssN) => .ok (uF, s1 :: ssN) := by
  simp [chainGo, hu]

/-- C1: the update of `chain [a, b, c]` on gradients `g` with state slices
`[s0, s1, s2]` equals manually threading `a.update`, `b.update`, `c.update`
left-to-right: link 0 receives the original gradients and slice 0, each
later link receives the previous link's output update and its own slice, the
chain's output is `c`'s update tree and the new state sequence is the three
new states in order. -/
theorem chain_three_threads (a b c : GradientTransformation) (g : PTree)
    (s0 s1 s2 : OptState) (p : Option PTree)
    (u1 u2 u3 : PTree) (t0 t1 t2 : OptState)
    (ha : a.update g s0 p = .ok (u1, t0))
    (hb : b.update u1 s1 p = .ok (u2, t1))
    (hc : c.update u2 s2 p = .ok (u3, t2)) :
    (chain [a, b, c]).update g (.seq [s0, s1, s2]) p = .ok (u3, .seq [t0, t1, t2]) := by
  simp [chain, chainGo, ha, hb, hc]

/-- Concrete instance of `chain_three_threads` on a chain of three
schedule-scaling links with constant schedule 1. -/
theorem chain_three_threads_witness :
    (chain [scale_by_schedule (fun _ => 1), scale_by_schedule (fun _ => 1),
            scale_by_schedule (fun _ => 1)]).update (.leaf [1])
        (.seq [.counter 0, .counter 0, .counter 0]) none =
      .ok (.leaf [-1], .seq [.counter 1, .counter 1, .counter 1]) := by
  have h1 : (scale_by_schedule (fun _ => (1 : ℝ))).update (.leaf [1]) (.counter 0) none =
      .ok (.leaf [-1], .counter 1) := by
    simp [scale_by_schedule, PTree.map]
  have h2 : (scale_by_schedule (fun _ => (1 : ℝ))).update (.leaf [-1]) (.counter 0) none =
      .ok (.leaf [1], .counter 1) := by
    simp [scale_by_schedule, PTree.map]
  exact chain_three_threads _ _ _ _ _ _ _ _ _ _ _ _ _ _ h1 h2 h1

/-- C8: scale-by-schedule multiplies every leaf of the incoming update tree
by `-schedule(step)`, increments the step counter by one, and fails in no
special error case (the result is always `ok`, for every step). -/
theorem scale_by_schedule_step (sched : ℕ → ℝ) (step : ℕ) (g : PTree) (p : Option PTree) :
    (scale_by_schedule sched).update g (.counter step) p =
      .ok (PTree.map (fun x => x * (-sched step)) g, .counter (step + 1)) := rfl

/-- C10: chain state-sequence length invariant: `init` returns exactly one
sub-state per link, and a successful `update` on a length-`n` state sequence
returns a new state sequence that again has length `n`. -/
theorem chain_state_length (ts : List GradientTransformation) (q g : PTree)
    (p : Option PTree) (ss : List OptState) (hss : ss.length = ts.length)
    (u : PTree) (sNew : OptState)
    (h : (chain ts).update g (.seq ss) p = .ok (u, sNew)) :
    (∃ l, (chain ts).init q = .seq l ∧ l.length = ts.length) ∧
    (∃ ssNew, sNew = .seq ssNew ∧ ssNew.length = ts.length) := by
  constructor
  · refine ⟨ts.map (fun t => t.init q), ?_, by simp⟩
    rfl
  · simp only [chain, hss, if_true] at h
    cases hg : chainGo ts g ss p with
    | error e => rw [hg] at h; simp at h
    | ok r =>
      obtain ⟨u2, ss2⟩ := r
      rw [hg] at h
      simp only [Except.ok.injEq, Prod.mk.injEq] at h
      exact ⟨ss2, h.2.symm, chainGo_length ts g ss p u2 ss2 hg⟩

/-- Concrete instance of `chain_state_length` on a one-link chain. -/
theorem chain_state_length_witness :
    (∃ l, (chain [scale_by_schedule (fun _ => 1)]).init (.leaf [1]) = .seq l ∧
        l.length = 1) ∧
    (∃ ssNew, (OptState.seq [.counter 1]) = .seq ssNew ∧ ssNew.length = 1) := by
  have h : (chain [scale_by_schedule (fun _ => (1 : ℝ))]).update (.leaf [1])
      (.seq [.counter 0]) none = .ok (.leaf [1 * -1], .seq [.counter 1]) := by
    simp [chain, chainGo, scale_by_schedule, PTree.map]
  exact chain_state_length [scale_by_schedule (fun _ => 1)] (.leaf [1]) (.leaf [1])
    none [.counter 0] rfl (.leaf [1 * -1]) (.seq [.counter 1]) h

/-- C5: weight decay returns `update - decay_rate * params` elementwise with
the state unchanged whenever the current params are present (with matching
structure), and fails with `MissingParamsError` whenever params are absent
from the call. -/
theorem add_decayed_weights_spec (decay_rate : ℝ) (g ps : PTree) (s : OptState)
    (h : PTree.sameStruct g ps = true) :
    (∃ out, PTree.zipWith (fun u w => u - decay_rate * w) g ps = some out ∧
        (add_decayed_weights decay_rate).update g s (some ps) = .ok (out, s)) ∧
    (add_decayed_weights decay_rate).update g s none = .error .missingParams := by
  constructor
  · have hsome : (PTree.zipWith (fun u w => u - decay_rate * w) g ps).isSome := by
      rw [PTree.zipWith_isSome]; exact h
    obtain ⟨out, hout⟩ := Option.isSome_iff_exists.mp hsome
    exact ⟨out, hout, by simp [add_decayed_weights, hout]⟩
  · rfl

/-- Concrete instance of `add_decayed_weights_spec` on single-entry trees. -/
theorem add_decayed_weights_spec_witness :
    PTree.sameStruct (.leaf [2]) (.leaf [1]) = true ∧
    ((∃ out, PTree.zipWith (fun u w => u - (1 / 2 : ℝ) * w) (.leaf [2]) (.leaf [1]) =
          some out ∧
        (add_decayed_weights (1 / 2)).update (.leaf [2]) .unit (some (.leaf [1])) =
          .ok (out, .unit)) ∧
      (add_decayed_weights (1 / 2)).update (.leaf [2]) .unit none =
        .error .missingParams) :=
  ⟨rfl, add_decayed_weights_spec (1 / 2) (.leaf [2]) (.leaf [1]) .unit rfl⟩

/-- C6: apply-updates returns the elementwise sum as a new tree when the two
trees' structures agree, fails with `StructuralMismatchError` whenever the
structures differ, and in particular fails — never silently drops or
zero-fills — whenever some top-level key of the updates tree is missing from
the params tree. -/
theorem apply_updates_spec (params updates : PTree) :
    (PTree.sameStruct params updates = true →
        ∃ t, PTree.zipWith (fun a b => a + b) params updates = some t ∧
          apply_updates params updates = .ok t) ∧
    (PTree.sameStruct params updates = false →
        apply_updates params updates = .error .structuralMismatch) ∧
    (∀ pf uf, params = .node pf → updates = .node uf →
        (∃ k, k ∈ PForest.keys uf ∧ k ∉ PForest.keys pf) →
        apply_updates params updates = .error .structuralMismatch) := by
  refine ⟨?_, ?_, ?_⟩
  · intro h
    have hsome : (PTree.zipWith (fun a b => a + b) params updates).isSome := by
      rw [PTree.zipWith_isSome]; exact h
    obtain ⟨t, ht⟩ := Option.isSome_iff_exists.mp hsome
    exact ⟨t, ht, by simp [apply_updates, ht]⟩
  · intro h
    have hnone : PTree.zipWith (fun a b => a + b) params updates = none := by
      have hz := PTree.zipWith_isSome (fun a b => a + b) params updates
      rw [h] at hz
      exact Option.not_isSome_iff_eq_none.mp (by simp [hz])
    simp [apply_updates, hnone]
  · rintro pf uf rfl rfl ⟨k, hk, hnk⟩
    have hfalse : PTree.sameStruct (.node pf) (.node uf) = false := by
      cases hval : PTree.sameStruct (.node pf) (.node uf)
      · rfl
      · have hforest : PForest.sameStruct pf uf = true := hval
        have hkeys := PForest.sameStruct_keys pf uf hforest
        rw [hkeys] at hnk
        exact absurd hk hnk
    have hnone : PTree.zipWith (fun a b => a + b) (.node pf) (.node uf) = none := by
      have hz := PTree.zipWith_isSome (fun a b => a + b) (.node pf) (.node uf)
      rw [hfalse] at hz
      exact Option.not_isSome_iff_eq_none.mp (by simp [hz])
    simp [apply_updates, hnone]

/-- Concrete instance of `apply_updates_spec`: the updates tree has the key
`output` that the params tree lacks, and apply-updates rejects the pair. -/
theorem apply_updates_spec_witness :
    apply_updates (.node (.cons "hidden" (.leaf [1]) .nil))
        (.node (.cons "hidden" (.leaf [2]) (.cons "output" (.leaf [3]) .nil))) =
      .error .structuralMismatch := by
  refine (apply_updates_spec _ _).2.2 _ _ rfl rfl ⟨"output", ?_, ?_⟩
  · simp [PForest.keys]
  · simp [PForest.keys]

/-- C3: global-norm clip computes one scalar L2 norm over all leaves jointly
(the tree flattened into a single vector); when that norm is at most the
threshold the tree is returned unchanged, and when it exceeds the threshold
every leaf is scaled by `threshold / norm`, so the clipped tree's global
norm equals the threshold. -/
theorem clip_by_global_norm_spec (threshold : ℝ) (hc : 0 ≤ threshold)
    (g : PTree) (s : OptState) (p : Option PTree) :
    global_norm g = Real.sqrt (((PTree.flatten g).map fun x => x ^ 2).sum) ∧
    (global_norm g ≤ threshold →
        (clip_by_global_norm threshold).update g s p = .ok (g, s)) ∧
    (threshold < global_norm g →
        (clip_by_global_norm threshold).update g s p =
          .ok (PTree.map (fun x => x * (threshold / global_norm g)) g, s) ∧
        global_norm (PTree.map (fun x => x * (threshold / global_norm g)) g) =
          threshold) := by
  refine ⟨?_, ?_, ?_⟩
  · rw [global_norm, PTree.sumSq_eq_flatten]
  · intro h
    simp [clip_by_global_norm, h]
  · intro h
    have hN : 0 < global_norm g := lt_of_le_of_lt hc h
    have hNne : global_norm g ≠ 0 := ne_of_gt hN
    constructor
    · simp [clip_by_global_norm, not_le.mpr h]
    · rw [global_norm, PTree.sumSq_map_mul, Real.sqrt_mul (PTree.sumSq_nonneg g),
          Real.sqrt_sq (div_nonneg hc (le_of_lt hN))]
      have hdef : Real.sqrt (PTree.sumSq g) = global_norm g := rfl
      rw [hdef, mul_comm, div_mul_cancel₀ threshold hNne]

/-- Concrete instance of `clip_by_global_norm_spec` at threshold 1 on a
two-entry leaf of global norm 5. -/
theorem clip_by_global_norm_spec_witness :
    (0 : ℝ) ≤ 1 ∧
    (global_norm (.leaf [3, 4]) =
        Real.sqrt (((PTree.flatten (.leaf [3, 4])).map fun x => x ^ 2).sum) ∧
      (global_norm (.leaf [3, 4]) ≤ 1 →
          (clip_by_global_norm 1).update (.leaf [3, 4]) .unit none =
            .ok (.leaf [3, 4], .unit)) ∧
      (1 < global_norm (.leaf [3, 4]) →
          (clip_by_global_norm 1).update (.leaf [3, 4]) .unit none =
            .ok (PTree.map (fun x => x * (1 / global_norm (.leaf [3, 4])))
                  (.leaf [3, 4]), .unit) ∧
          global_norm (PTree.map (fun x => x * (1 / global_norm (.leaf [3, 4])))
              (.leaf [3, 4])) = 1)) :=
  ⟨by norm_num, clip_by_global_norm_spec 1 (by norm_num) (.leaf [3, 4]) .unit none⟩

/-- C4: the warmup + cosine-decay schedule hits its boundary values exactly:
`schedule 0 = init_value`, `schedule warmup_steps = peak_value`,
`schedule decay_steps = end_value`, every step beyond `decay_steps` returns
`end_value`, and the warmup-side formula meets `peak_value` at
`warmup_steps` (continuity at both boundary steps). -/
theorem warmup_cosine_decay_boundaries (iv pv ev : ℝ) (w d : ℕ)
    (hw : 0 < w) (hwd : w < d) :
    warmup_cosine_decay_schedule iv pv w d ev 0 = iv ∧
    warmup_cosine_decay_schedule iv pv w d ev w = pv ∧
    warmup_cosine_decay_schedule iv pv w d ev d = ev ∧
    (∀ s, d < s → warmup_cosine_decay_schedule iv pv w d ev s = ev) ∧
    iv + (pv - iv) * ((w : ℝ) / (w : ℝ)) = pv := by
  have hw0 : (w : ℝ) ≠ 0 := Nat.cast_ne_zero.mpr (Nat.pos_iff_ne_zero.mp hw)
  have hcast : (w : ℝ) < (d : ℝ) := Nat.cast_lt.mpr hwd
  have hdw : (d : ℝ) - (w : ℝ) ≠ 0 := sub_ne_zero.mpr (ne_of_gt hcast)
  refine ⟨?_, ?_, ?_, ?_, ?_⟩
  · simp [warmup_cosine_decay_schedule, hw]
  · rw [warmup_cosine_decay_schedule]
    rw [if_neg (lt_irrefl w), if_pos (le_of_lt hwd)]
    simp only [sub_self, zero_div, max_self, min_eq_right (by norm_num : (0:ℝ) ≤ 1),
      mul_zero, Real.cos_zero]
    ring
  · rw [warmup_cosine_decay_schedule]
    rw [if_neg (Nat.lt_asymm hwd), if_pos (le_refl d)]
    simp only [div_self hdw, max_eq_right (by norm_num : (0:ℝ) ≤ 1),
      min_self, mul_one, Real.cos_pi]
    ring
  · intro s hs
    rw [warmup_cosine_decay_schedule]
    rw [if_neg (by omega : ¬ s < w), if_neg (not_le.mpr hs)]
  · rw [div_self hw0, mul_one]
    ring

/-- Concrete instance of `warmup_cosine_decay_boundaries` at the notebook's
schedule parameters. -/
theorem warmup_cosine_decay_boundaries_witness :
    warmup_cosine_decay_schedule 0 1 50 1000 0 0 = 0 ∧
    warmup_cosine_decay_schedule 0 1 50 1000 0 50 = 1 ∧
    warmup_cosine_decay_schedule 0 1 50 1000 0 1000 = 0 ∧
    (∀ s, 1000 < s → warmup_cosine_decay_schedule 0 1 50 1000 0 s = 0) ∧
    (0 : ℝ) + (1 - 0) * ((50 : ℕ) : ℝ) / ((50 : ℕ) : ℝ) = 1 := by
  have h := warmup_cosine_decay_boundaries 0 1 0 (w := 50) (d := 1000)
    (by norm_num) (by norm_num)
  refine ⟨h.1, h.2.1, h.2.2.1, h.2.2.2.1, ?_⟩
  have h5 := h.2.2.2.2
  rw [mul_div_assoc]
  exact h5

/-- C2: starting from the zero-initialised Adam state (`m = 0`, `v = 0`,
step counter 0), one update with gradient tree `g` returns exactly
`g / (|g| + eps)` elementwise: the bias correction divides by `1 - b1 ^ t`
and `1 - b2 ^ t` at the post-increment step `t = 1`, giving `m_hat = g` and
`v_hat = g²`. -/
theorem scale_by_adam_first_step (b1 b2 eps : ℝ) (hb1 : b1 ≠ 1) (hb2 : b2 ≠ 1)
    (g : PTree) (p : Option PTree) :
    (scale_by_adam b1 b2 eps).update g ((scale_by_adam b1 b2 eps).init g) p =
      .ok (PTree.map (fun x => x / (|x| + eps)) g,
           .moments (PTree.map (fun x => (1 - b1) * x) g)
                    (PTree.map (fun x => (1 - b2) * x ^ 2) g) 1) := by
  have h1 : (1 : ℝ) - b1 ≠ 0 := sub_ne_zero.mpr (Ne.symm hb1)
  have h2 : (1 : ℝ) - b2 ≠ 0 := sub_ne_zero.mpr (Ne.symm hb2)
  have hm : PTree.zipWith (fun mi gi => b1 * mi + (1 - b1) * gi)
      (PTree.map (fun _ => 0) g) g = some (PTree.map (fun x => (1 - b1) * x) g) := by
    have hz := PTree.zipWith_map_left (fun mi gi => b1 * mi + (1 - b1) * gi) (fun _ => 0) g
    simpa [show (fun x : ℝ => b1 * 0 + (1 - b1) * x) = fun x : ℝ => (1 - b1) * x from
      by funext x; ring] using hz
  have hv : PTree.zipWith (fun vi gi => b2 * vi + (1 - b2) * gi ^ 2)
      (PTree.map (fun _ => 0) g) g = some (PTree.map (fun x => (1 - b2) * x ^ 2) g) := by
    have hz := PTree.zipWith_map_left (fun vi gi => b2 * vi + (1 - b2) * gi ^ 2) (fun _ => 0) g
    simpa [show (fun x : ℝ => b2 * 0 + (1 - b2) * x ^ 2) = fun x : ℝ => (1 - b2) * x ^ 2 from
      by funext x; ring] using hz
  simp only [scale_by_adam]
  rw [hm, hv]
  simp only [PTree.map_map, PTree.zipWith_map_map]
  have hfun : (fun x : ℝ => ((1 - b1) * x / (1 - b1 ^ (0 + 1))) /
      (Real.sqrt ((1 - b2) * x ^ 2 / (1 - b2 ^ (0 + 1))) + eps)) =
      fun x : ℝ => x / (|x| + eps) := by
    funext x
    rw [pow_one, pow_one, mul_div_cancel_left₀ x h1, mul_div_cancel_left₀ (x ^ 2) h2,
      Real.sqrt_sq_eq_abs]
  rw [hfun]

/-- Concrete instance of `scale_by_adam_first_step` with decay rates 1/2,
floor 1 and gradient leaf [3]. -/
theorem scale_by_adam_first_step_witness :
    ((1 : ℝ) / 2 ≠ 1) ∧
    (scale_by_adam (1 / 2) (1 / 2) 1).update (.leaf [3])
        ((scale_by_adam (1 / 2) (1 / 2) 1).init (.leaf [3])) none =
      .ok (PTree.map (fun x => x / (|x| + 1)) (.leaf [3]),
           .moments (PTree.map (fun x => (1 - 1 / 2) * x) (.leaf [3]))
                    (PTree.map (fun x => (1 - 1 / 2) * x ^ 2) (.leaf [3])) 1) :=
  ⟨by norm_num,
   scale_by_adam_first_step (1 / 2) (1 / 2) 1 (by norm_num) (by norm_num) (.leaf [3]) none⟩

/-- The training loop inside the notebook's `fit`: per step, take this
step's gradient of the loss at the current params (the gradient oracle
stands for `jax.value_and_grad(loss)` on this step's batch), run the
optimizer's update with the threaded optimizer state, and apply the update
tree to the params; thread the new params and state into the next step. -/
def fitLoop (optimizer : GradientTransformation) :
    List (PTree → PTree) → PTree → OptState → Except Err PTree
  | [], params, _ => .ok params
  | gf :: rest, params, optState =>
    match optimizer.update (gf params) optState (some params) with
    | .error e => .error e
    | .ok (updates, optState') =>
      match apply_updates params updates with
      | .error e => .error e
      | .ok paramsNew => fitLoop optimizer rest paramsNew optState'

/-- The notebook's `fit`: initialise the optimizer state from the incoming
params and run the training loop, returning the final params as a new
value. -/
def fit (params : PTree) (optimizer : GradientTransformation)
    (gradFns : List (PTree → PTree)) : Except Err PTree :=
  fitLoop optimizer gradFns params (optimizer.init params)

/-- The notebook's top-level bindings involved in the two `fit` calls:
`initial_params` (the Gaussian-initialised tree of the parameter cell) and
`params` (unbound until a fit cell assigns it). -/
structure NotebookEnv where
  initial_params : PTree
  params : Option (Except Err PTree)

/-- Modelled from the spec: the notebook cell `params = fit(initial_params,
optimizer)` as a transition on the top-level bindings.  Every library
operation is pure and returns new values (spec §4.1/§5), and `fit` only
rebinds its local loop variables, so the cell writes the `params` binding
and nothing else. -/
def runFitCell (optimizer : GradientTransformation) (gradFns : List (PTree → PTree))
    (env : NotebookEnv) : NotebookEnv :=
  { env with params := some (fit env.initial_params optimizer gradFns) }

/-- C9: a full fit cell (repeated `optimizer.update` plus
`optax.apply_updates`) leaves the `initial_params` binding exactly equal to
its original value, so the second fit cell starts from the identical
starting point: it computes `fit` of the untouched original
`initial_params`. -/
theorem fit_frame_initial_params (opt1 opt2 : GradientTransformation)
    (gf1 gf2 : List (PTree → PTree)) (env : NotebookEnv) :
    (runFitCell opt1 gf1 env).initial_params = env.initial_params ∧
    (runFitCell opt2 gf2 (runFitCell opt1 gf1 env)).initial_params =
      env.initial_params ∧
    (runFitCell opt2 gf2 (runFitCell opt1 gf1 env)).params =
      some (fit env.initial_params opt2 gf2) := by
  refine ⟨rfl, rfl, rfl⟩
